import Mathlib

/-!
Verification of the camera-process supervisor (src/src/index.ts) and its
gst-device-monitor capability parser (src/src/parse.ts).

The TypeScript source is shallowly embedded: strings are lists of
characters, JavaScript numbers are modelled by `JsNum` (NaN, the two
infinities, and finite values as exact rationals — finite doubles are
idealised as rationals, and negative zero is conflated with zero; the
claims under audit depend only on the NaN/Infinity structure and on exact
small integer values), promises settle to `Settled` outcomes, and the
asynchronous environment (whether a process emits a terminal event within
the kill timeout, whether a stdin write is acknowledged) is carried as
oracle fields on the process model. JavaScript exceptions are modelled
with `Except`.
-/

set_option linter.unusedVariables false

attribute [local semireducible] Rat.mul Rat.inv Rat.add Rat.sub Rat.ofScientific

/-- Strings are modelled as lists of characters so that the regular
expression matching of the source can be traced position by position. -/
abbrev Str := List Char

/-- Shorthand turning a Lean string literal into the `Str` model. -/
def strL (s : String) : Str := s.data

/-- Left brace character, U+007B. -/
def lbrace : Char := Char.ofNat 123

/-- Right brace character, U+007D. -/
def rbrace : Char := Char.ofNat 125

/-- The JavaScript whitespace class (the chars matched by regexp `\s` and
removed by `String.prototype.trim`). -/
def jsWs (c : Char) : Bool :=
  c = ' ' || c = '\t' || c = '\n' || c = '\r' ||
  c.toNat = 11 || c.toNat = 12 || c.toNat = 0xa0 || c.toNat = 0x1680 ||
  (0x2000 ≤ c.toNat && c.toNat ≤ 0x200a) ||
  c.toNat = 0x2028 || c.toNat = 0x2029 || c.toNat = 0x202f ||
  c.toNat = 0x205f || c.toNat = 0x3000 || c.toNat = 0xfeff

/-- JavaScript line terminators: the chars regexp `.` does not match. -/
def lineTerm (c : Char) : Bool :=
  c = '\n' || c = '\r' || c.toNat = 0x2028 || c.toNat = 0x2029

/-- Negation of `lineTerm`, the chars matched by regexp `.`. -/
def notLT (c : Char) : Bool := !lineTerm c

/-- Model of `String.prototype.trim`. -/
def jsTrim (l : Str) : Str :=
  ((l.dropWhile jsWs).reverse.dropWhile jsWs).reverse

/-- ASCII decimal digit test (regexp `\d`). -/
def isDigit (c : Char) : Bool := '0' ≤ c && c ≤ '9'

/-- ASCII lowercase letter test (regexp `[a-z]`). -/
def isLowerAZ (c : Char) : Bool := 'a' ≤ c && c ≤ 'z'

/-- Value of a decimal digit character. -/
def digVal (c : Char) : Nat := c.toNat - 48

/-- Value of a decimal digit string read left to right. -/
def digitsToNat (l : Str) : Nat := l.foldl (fun a c => a * 10 + digVal c) 0

/-- Hexadecimal digit test. -/
def isHexDigit (c : Char) : Bool :=
  isDigit c || ('a' ≤ c && c ≤ 'f') || ('A' ≤ c && c ≤ 'F')

/-- Value of a hexadecimal digit character. -/
def hexVal (c : Char) : Nat :=
  if isDigit c then digVal c
  else if 'a' ≤ c && c ≤ 'f' then c.toNat - 87
  else c.toNat - 55

/-- Value of a hexadecimal digit string. -/
def hexToNat (l : Str) : Nat := l.foldl (fun a c => a * 16 + hexVal c) 0

/-- Octal digit test. -/
def isOctDigit (c : Char) : Bool := '0' ≤ c && c ≤ '7'

/-- Value of an octal digit string. -/
def octToNat (l : Str) : Nat := l.foldl (fun a c => a * 8 + digVal c) 0

/-- Binary digit test. -/
def isBinDigit (c : Char) : Bool := c = '0' || c = '1'

/-- Value of a binary digit string. -/
def binToNat (l : Str) : Nat := l.foldl (fun a c => a * 2 + digVal c) 0

/-- Model of a JavaScript number restricted to the shapes this program
produces: NaN, the infinities, and finite values as exact rationals. -/
inductive JsNum where
  | nan : JsNum
  | posinf : JsNum
  | neginf : JsNum
  | fin (q : ℚ) : JsNum
deriving DecidableEq, Repr

/-- Test for NaN (model of `isNaN` on a number argument). -/
def JsNum.isNaN : JsNum → Bool
  | .nan => true
  | _ => false

/-- JavaScript unary minus on numbers (negative zero conflated with zero). -/
def jsNeg : JsNum → JsNum
  | .nan => .nan
  | .posinf => .neginf
  | .neginf => .posinf
  | .fin q => .fin (-q)

/-- JavaScript strict greater-than on numbers: false whenever either side
is NaN, otherwise the usual order with the infinities at the ends. -/
def jsGt : JsNum → JsNum → Bool
  | .nan, _ => false
  | _, .nan => false
  | .posinf, .posinf => false
  | .posinf, _ => true
  | .neginf, _ => false
  | .fin _, .posinf => false
  | .fin _, .neginf => true
  | .fin a, .fin b => decide (b < a)

/-- JavaScript strict equality on numbers: NaN equals nothing, otherwise
structural comparison. -/
def jsEqb : JsNum → JsNum → Bool
  | .nan, _ => false
  | _, .nan => false
  | .posinf, .posinf => true
  | .neginf, .neginf => true
  | .fin a, .fin b => decide (a = b)
  | _, _ => false

/-- JavaScript division on numbers. Division by zero of a nonzero finite
numerator yields an infinity (the sign of zero is not modelled, so the
result uses the numerator sign only); zero over zero and any NaN operand
yield NaN. -/
def jsDiv : JsNum → JsNum → JsNum
  | .nan, _ => .nan
  | _, .nan => .nan
  | .posinf, .posinf => .nan
  | .posinf, .neginf => .nan
  | .neginf, .posinf => .nan
  | .neginf, .neginf => .nan
  | .posinf, .fin b => if b < 0 then .neginf else .posinf
  | .neginf, .fin b => if b < 0 then .posinf else .neginf
  | .fin _, .posinf => .fin 0
  | .fin _, .neginf => .fin 0
  | .fin a, .fin b =>
    if b = 0 then (if a = 0 then .nan else if 0 < a then .posinf else .neginf)
    else .fin (a / b)

/-- Exponent part of a decimal numeric literal: consumes `e`/`E`, an
optional sign and at least one digit; otherwise consumes nothing. -/
def expOf (l : Str) : Int × Str :=
  match l with
  | c :: t =>
    if c = 'e' || c = 'E' then
      match t with
      | '+' :: u =>
        let ds := u.takeWhile isDigit
        if ds = [] then (0, l) else ((digitsToNat ds : Int), u.drop ds.length)
      | '-' :: u =>
        let ds := u.takeWhile isDigit
        if ds = [] then (0, l) else (-(digitsToNat ds : Int), u.drop ds.length)
      | u =>
        let ds := u.takeWhile isDigit
        if ds = [] then (0, l) else ((digitsToNat ds : Int), u.drop ds.length)
    else (0, l)
  | [] => (0, [])

/-- Value of a decimal literal with integer part, fraction part and
exponent. -/
def decValue (ip fp : Str) (e : Int) : ℚ :=
  ((digitsToNat ip : ℚ) + (digitsToNat fp : ℚ) / (10 : ℚ) ^ fp.length) *
    (10 : ℚ) ^ e

/-- Parse an unsigned decimal literal (`digits [. digits] [exp]` or
`. digits [exp]`); the whole input must be consumed. -/
def parseDecQ (l : Str) : Option ℚ :=
  let ip := l.takeWhile isDigit
  let r1 := l.drop ip.length
  match r1 with
  | '.' :: r2 =>
    let fp := r2.takeWhile isDigit
    if ip = [] && fp = [] then none
    else
      let er := expOf (r2.drop fp.length)
      if er.2 = [] then some (decValue ip fp er.1) else none
  | _ =>
    if ip = [] then none
    else
      let er := expOf r1
      if er.2 = [] then some (decValue ip [] er.1) else none

/-- Parse an unsigned numeric literal body: `Infinity` or a decimal
literal. -/
def parseUnsigned (l : Str) : Option JsNum :=
  if l = strL "Infinity" then some .posinf
  else (parseDecQ l).map (fun q => .fin q)

/-- Model of JavaScript `ToNumber` on strings (the unary `+str` of the
source): trim, empty gives 0, optional sign with `Infinity` or a decimal
literal, or an unsigned `0x`/`0o`/`0b` literal; anything else is NaN. -/
def jsToNumber (s : Str) : JsNum :=
  let t := jsTrim s
  if t = [] then .fin 0
  else
    match t with
    | '+' :: u => (parseUnsigned u).getD .nan
    | '-' :: u => ((parseUnsigned u).map jsNeg).getD .nan
    | '0' :: k :: u =>
      if k = 'x' || k = 'X' then
        if u ≠ [] && u.all isHexDigit then .fin (hexToNat u : ℚ) else .nan
      else if k = 'o' || k = 'O' then
        if u ≠ [] && u.all isOctDigit then .fin (octToNat u : ℚ) else .nan
      else if k = 'b' || k = 'B' then
        if u ≠ [] && u.all isBinDigit then .fin (binToNat u : ℚ) else .nan
      else (parseUnsigned t).getD .nan
    | _ => (parseUnsigned t).getD .nan

/-- Model of `String.prototype.toLocaleLowerCase` restricted to ASCII,
which is all the comparisons of the source use. -/
def lowerStr (l : Str) : Str := l.map Char.toLower

/-- Decimal digits of a natural number, fuel-driven so that the kernel can
evaluate it (models the number-to-string conversion of a template
literal). -/
def natToCharsAux : Nat → Nat → Str
  | 0, _ => []
  | f + 1, n =>
    if n < 10 then [Char.ofNat (48 + n)]
    else natToCharsAux f (n / 10) ++ [Char.ofNat (48 + n % 10)]

/-- Decimal string of a natural number. -/
def natToChars (n : Nat) : Str := natToCharsAux (n + 1) n

/-!
Model of src/src/parse.ts: the recursive capability-parameter parser
`parseCapParameters` and its regular expressions, the dotted-path
`set`/`setFromPath` helpers, and the line-classifying device parser
`parseGstDevices`.
-/

/-- A parsed capability parameter value: the `type` tag and payload that
`parseCapParameters` stores on a parameter object on success (atom, range
or choice). -/
inductive GSTCapParameter where
  | atom (value : Str) : GSTCapParameter
  | range (min : Option Str) (mindenom : Option Str) (max : Option Str)
      (maxdenom : Option Str) (step : Option Str) : GSTCapParameter
  | choice (list : List Str) : GSTCapParameter
deriving DecidableEq, Repr

/-- The parameter object `values` built by `parseCapParameters`: an
optional `valueType` from the `(typehint)` group, and — only when value
parsing succeeded — a typed payload. `val = none` models the object that
carries no `type` key because the choice or range match failed. -/
structure CapParamObj where
  valueType : Option Str
  val : Option GSTCapParameter
deriving DecidableEq, Repr

/-- Name-character class of the parameter-name regexp, `[a-z\-]`. -/
def isNameChar (c : Char) : Bool := isLowerAZ c || c = '-'

/-- Index of the first `=` in the input, the anchor the unanchored
parameter-name regexp locks onto. -/
def findEqIdx : Str → Option Nat
  | [] => none
  | c :: t => if c = '=' then some 0 else (findEqIdx t).map (· + 1)

/-- Captures of the parameter-head regexp
`(?<name>[a-z\-]*)=(\((?<type>[a-z]*)\))?(?<rest>.*)`. -/
structure NameMatch where
  name : Str
  typeHint : Option Str
  rest : Str
deriving DecidableEq, Repr

/-- The optional `(\((?<type>[a-z]*)\))?` group after the equals sign: it
participates only when an opening parenthesis, a lowercase run and a
closing parenthesis are all present; otherwise it matches empty and the
remainder starts at the parenthesis. -/
def hintAndRest (after : Str) : Option Str × Str :=
  match after with
  | '(' :: t =>
    let run := t.takeWhile isLowerAZ
    match t.drop run.length with
    | ')' :: t2 => (some run, t2)
    | _ => (none, after)
  | _ => (none, after)

/-- Leftmost match of the parameter-head regexp: the name is the longest
run of `[a-z-]` ending at the first `=`; a `(lowercase)` type hint right
after the `=` is consumed when fully present; `rest` is the remainder up
to a line terminator. -/
def nameMatch (s : Str) : Option NameMatch :=
  match findEqIdx s with
  | none => none
  | some i =>
    let hr := hintAndRest (s.drop (i + 1))
    some ⟨((s.take i).reverse.takeWhile isNameChar).reverse, hr.1,
      hr.2.takeWhile notLT⟩

/-- Model of JavaScript `split(', ')` (leftmost, non-overlapping). -/
def splitCS : Str → List Str
  | [] => [[]]
  | ',' :: ' ' :: t => [] :: splitCS t
  | c :: t =>
    match splitCS t with
    | [] => [[c]]
    | h :: r => (c :: h) :: r

/-- Model of JavaScript `split('/')`. -/
def splitSlash : Str → List Str
  | [] => [[]]
  | '/' :: t => [] :: splitSlash t
  | c :: t =>
    match splitSlash t with
    | [] => [[c]]
    | h :: r => (c :: h) :: r

/-- Per-element post-processing of a choice list:
`s.trim().replace(^\((type)\), '')` — trim, then strip one leading
parenthesised lowercase type tag when fully present. -/
def choiceElem (e : Str) : Str :=
  let t := jsTrim e
  match t with
  | '(' :: u =>
    let run := u.takeWhile isLowerAZ
    match u.drop run.length with
    | ')' :: t2 => t2
    | _ => t
  | _ => t

/-- Match of the choice regexp `\{(?<list>[^\}]*)\}(?<rest>.*)` against a
remainder that starts with a brace (the only way the source reaches it):
the list is the text up to the first closing brace, the rest follows it.
Returns the raw inner text and the rest. -/
def choiceMatch (r : Str) : Option (Str × Str) :=
  match r with
  | c :: t =>
    if c = lbrace then
      let inner := t.takeWhile (fun x => x ≠ rbrace)
      match t.drop inner.length with
      | _ :: t2 => some (inner, t2.takeWhile notLT)
      | [] => none
    else none
  | [] => none

/-- Captures of the range regexp
`\[ min[/mindenom], max[/maxdenom][, step] \](rest)`. A `none` denom/step
means the group did not participate; an empty capture is `some []`. -/
structure RangeParts where
  rmin : Str
  rmindenom : Option Str
  rmax : Str
  rmaxdenom : Option Str
  rstep : Option Str
  rest : Str
deriving DecidableEq, Repr

/-- The optional `(\/(?<denom>\d*))?` group: when the next char is a
slash it participates and consumes the digits after it, otherwise it
matches empty. -/
def denomOpt (t : Str) : Option Str × Str :=
  match t with
  | '/' :: u => (some (u.takeWhile isDigit), u.drop (u.takeWhile isDigit).length)
  | _ => (none, t)

/-- The optional `(, (?<step>\d*))?` group. -/
def stepOpt (t : Str) : Option Str × Str :=
  match t with
  | ',' :: ' ' :: u => (some (u.takeWhile isDigit), u.drop (u.takeWhile isDigit).length)
  | _ => (none, t)

/-- Attempt the range regexp at the head of the input. The starred digit
groups and optional groups are deterministic here because their character
classes are disjoint from the literal delimiters that follow them. -/
def rangeAt (l : Str) : Option RangeParts :=
  match l with
  | '[' :: ' ' :: t =>
    let minv := t.takeWhile isDigit
    let md := denomOpt (t.drop minv.length)
    match md.2 with
    | ',' :: ' ' :: t3 =>
      let maxv := t3.takeWhile isDigit
      let xd := denomOpt (t3.drop maxv.length)
      let sp := stepOpt xd.2
      match sp.2 with
      | ' ' :: ']' :: t7 => some ⟨minv, md.1, maxv, xd.1, sp.1, t7.takeWhile notLT⟩
      | _ => none
    | _ => none
  | _ => none

/-- Leftmost match of the (unanchored) range regexp: scan start positions
left to right. -/
def rangeMatch : Str → Option RangeParts
  | [] => none
  | c :: t =>
    match rangeAt (c :: t) with
    | some rp => some rp
    | none => rangeMatch t

/-- Value separator class of the bare-atom regexp `[^, ;]`. -/
def notValSep (c : Char) : Bool := !(c = ',' || c = ' ' || c = ';')

/-- JavaScript truthiness on an optional captured string: an absent or
empty capture is falsy, so the property is not set. -/
def jsTruthyOpt (o : Option Str) : Option Str :=
  match o with
  | some [] => none
  | x => x

/-- Model of `Object.assign(a, b)` on string-keyed records represented as
association lists with unique keys: keys of `a` keep their position but
take the value from `b` when present; new keys of `b` are appended. -/
def objAssignP (a b : List (Str × CapParamObj)) : List (Str × CapParamObj) :=
  a.map (fun kv => (kv.1, ((b.lookup kv.1).getD kv.2))) ++
    b.filter (fun kv => (a.lookup kv.1).isNone)

/-- One step of `parseCapParameters`: match the parameter head, then the
choice / range / bare-atom value after it. Returns the record entry built
for this parameter and the remainder passed to the recursive call
(`none` models the undefined `nextRest` after a failed choice or range
match, which the source reports with a console warning). -/
def capParseStep (s : Str) : Option ((Str × CapParamObj) × Option Str) :=
  match nameMatch s with
  | none => none
  | some nm =>
    let vt := jsTruthyOpt nm.typeHint
    if nm.rest.head? = some lbrace then
      match choiceMatch nm.rest with
      | none => some ((nm.name, ⟨vt, none⟩), none)
      | some (inner, r2) =>
        some ((nm.name, ⟨vt, some (.choice ((splitCS inner).map choiceElem))⟩), some r2)
    else if nm.rest.head? = some '[' then
      match rangeMatch nm.rest with
      | none => some ((nm.name, ⟨vt, none⟩), none)
      | some rp =>
        some ((nm.name,
          ⟨vt, some (.range (some rp.rmin) (jsTruthyOpt rp.rmindenom)
            (some rp.rmax) (jsTruthyOpt rp.rmaxdenom) (jsTruthyOpt rp.rstep))⟩),
          some rp.rest)
    else
      let v := nm.rest.takeWhile notValSep
      some ((nm.name, ⟨vt, some (.atom v)⟩),
        some ((nm.rest.drop v.length).takeWhile notLT))

/-- Fuel-driven recursion of `parseCapParameters`; the fuel is only a
guard for Lean, and `parseCapParameters_terminates` proves it is never
exhausted when the wrapper supplies `length + 1`. -/
def parseCapParametersGo : Nat → Str → List (Str × CapParamObj)
  | 0, _ => []
  | f + 1, s =>
    match capParseStep s with
    | none => []
    | some (entry, nextRest) =>
      objAssignP [entry]
        (match nextRest with
         | none => []
         | some r => parseCapParametersGo f r)

/-- Model of `parseCapParameters`: `none` models the undefined argument of
the recursive call after a failed value match, returning the empty record
at once. -/
def parseCapParameters : Option Str → List (Str × CapParamObj)
  | none => []
  | some s => parseCapParametersGo (s.length + 1) s

/-- A dynamic JavaScript value as built by the dotted-path `set` helper:
either a string leaf or a nested object (association list with unique
keys). -/
inductive JsonVal where
  | str (s : Str) : JsonVal
  | obj (fields : List (Str × JsonVal)) : JsonVal

/-- First-occurrence lookup in an object. -/
def objLookup (l : List (Str × JsonVal)) (k : Str) : Option JsonVal :=
  match l with
  | [] => none
  | kv :: t => if kv.1 = k then some kv.2 else objLookup t k

/-- Property assignment on an object: overwrite in place when the key
exists, append otherwise. -/
def objSet (l : List (Str × JsonVal)) (k : Str) (v : JsonVal) :
    List (Str × JsonVal) :=
  match l with
  | [] => [(k, v)]
  | kv :: t => if kv.1 = k then (k, v) :: t else kv :: objSet t k v

/-- Model of `setFromPath`: walk the dotted path, creating empty objects
for missing segments. When an intermediate segment holds a string leaf
the source assigns a property on a string primitive, which throws a
TypeError in strict mode; that is the `Except.error` case. -/
def setFromPath (l : List (Str × JsonVal)) : List Str → Str →
    Except Unit (List (Str × JsonVal))
  | [], _ => .ok l
  | [k], v => .ok (objSet l k (.str v))
  | k :: rest, v =>
    match objLookup l k with
    | some (.obj sub) => do
      let sub2 ← setFromPath sub rest v
      .ok (objSet l k (.obj sub2))
    | some (.str _) => .error ()
    | none => do
      let sub2 ← setFromPath [] rest v
      .ok (objSet l k (.obj sub2))

/-- Model of JavaScript `split('.')`. -/
def splitDot : Str → List Str
  | [] => [[]]
  | '.' :: t => [] :: splitDot t
  | c :: t =>
    match splitDot t with
    | [] => [[c]]
    | h :: r => (c :: h) :: r

/-- Model of the `set` helper: split the key on dots and set the nested
field. -/
def setDotted (l : List (Str × JsonVal)) (key : Str) (v : Str) :
    Except Unit (List (Str × JsonVal)) :=
  setFromPath l (splitDot key) v

/-- A structured capability produced by the post-processing pass: the text
before the first `, ` and the parsed parameter record after it. -/
structure GSTCap where
  type : Str
  parameters : List (Str × CapParamObj)
deriving DecidableEq, Repr

/-- Post-processing of one raw capability line with
`^(?<type>[^,]*), (?<parameters>.*)`: the first comma must be followed by
a space, else the cap is dropped. -/
def capLineToCap (l : Str) : Option GSTCap :=
  let ty := l.takeWhile (fun c => c ≠ ',')
  match l.drop ty.length with
  | ',' :: ' ' :: rest =>
    some ⟨ty, parseCapParameters (some (rest.takeWhile notLT))⟩
  | _ => none

/-- A device as consumed by `getCameras` after parsing: the launch type,
the `properties` object when a properties block was seen, and the
post-processed caps when a `caps` field was seen. Other list-valued
fields (name, class, ...) do not influence the supervisor and are kept in
the raw machine state only. -/
structure GSTDevice where
  type : Option Str
  properties : Option (List (Str × JsonVal))
  caps : Option (List GSTCap)

/-- Raw per-device state built by the line state machine. -/
structure RawDevice where
  rtype : Option Str
  rprops : Option (List (Str × JsonVal))
  rflds : List (Str × List Str)

/-- The empty device object opened at a `Device found:` marker. -/
def RawDevice.empty : RawDevice := ⟨none, none, []⟩

/-- Lookup of a list-valued field. -/
def fldLookup (l : List (Str × List Str)) (k : Str) : Option (List Str) :=
  match l with
  | [] => none
  | kv :: t => if kv.1 = k then some kv.2 else fldLookup t k

/-- Assignment of a list-valued field (overwrite or append). -/
def fldSet (l : List (Str × List Str)) (k : Str) (v : List Str) :
    List (Str × List Str) :=
  match l with
  | [] => [(k, v)]
  | kv :: t => if kv.1 = k then (k, v) :: t else kv :: fldSet t k v

/-- Captures of the field-header regexp
`^\s*(?<key>[a-z\s]*)\s*:(?<value>.*)`: the run of lowercase letters and
whitespace from the start must be followed by a colon; the key capture is
that run minus its maximal leading whitespace. -/
def fieldMatch (l : Str) : Option (Str × Str) :=
  let run := l.takeWhile (fun c => isLowerAZ c || jsWs c)
  match l.drop run.length with
  | ':' :: rest => some (run.dropWhile jsWs, rest.takeWhile notLT)
  | _ => none

/-- Key-character class of the property regexp, `[a-z0-9-_\.]`. -/
def isPropKeyChar (c : Char) : Bool :=
  isLowerAZ c || isDigit c || c = '-' || c = '_' || c = '.'

/-- Captures of the property regexp
`^\s*(?<key>[a-z0-9-_\.]*) = (?<value>.*)`. The greedy leading `\s*` and
the key run must be followed by a literal space-equals-space; when that
fails the only backtracking alternative is giving one whitespace char
back to match the literal space, producing an empty key. -/
def propertyMatch (l : Str) : Option (Str × Str) :=
  let w := (l.takeWhile jsWs).length
  let key := (l.drop w).takeWhile isPropKeyChar
  let after := l.drop (w + key.length)
  match after with
  | ' ' :: '=' :: ' ' :: rest => some (key, rest.takeWhile notLT)
  | _ =>
    if w ≥ 1 then
      match l.drop (w - 1) with
      | ' ' :: '=' :: ' ' :: rest => some ([], rest.takeWhile notLT)
      | _ => none
    else none

/-- Captures of the launch-type regexp
`^\s*gst-launch-1.0 (?<type>\S*) .*!.*$` (the unescaped dot matches any
non-terminator char). The type token is the maximal non-whitespace run,
the char after it must be a plain space, and an exclamation mark must
occur in the line-terminator-free remainder, which must reach the end of
the string. -/
def typeMatch (l : Str) : Option Str :=
  let t := l.dropWhile jsWs
  match t with
  | 'g' :: 's' :: 't' :: '-' :: 'l' :: 'a' :: 'u' :: 'n' :: 'c' :: 'h' ::
      '-' :: '1' :: d :: '0' :: ' ' :: r =>
    if lineTerm d then none
    else
      let tok := r.takeWhile (fun c => !jsWs c)
      match r.drop tok.length with
      | ' ' :: rem =>
        if rem.all notLT && rem.any (fun c => c = '!') then some tok else none
      | _ => none
  | _ => none

/-- State of the single-pass line machine of `parseGstDevices`. -/
structure MachineState where
  devices : List RawDevice
  cur : RawDevice
  pushed : Bool
  fld : Option Str
  inProps : Bool

/-- Process one classified line. Mirrors the source loop: a `Device
found:` marker opens a new device; a launch-type line sets the type; a
field header opens a list field, or the properties object when the
trimmed key is `properties`; any other line is a continuation — a
property assignment into the properties object when the properties flag
is set, otherwise a push of the trimmed text. The error cases model the
TypeErrors an undefined field target would raise; they are unreachable in
runs of the machine but kept for faithfulness. -/
def stepLine (st : MachineState) (line : Str) : Except Unit MachineState :=
  if line = strL "Device found:" then
    .ok ⟨st.devices ++ (if st.pushed then [st.cur] else []),
      RawDevice.empty, true, none, false⟩
  else
    match typeMatch line with
    | some t => .ok { st with cur := { st.cur with rtype := some t } }
    | none =>
      match fieldMatch line with
      | some kv =>
        let f := jsTrim kv.1
        if f = strL "properties" then
          let cur2 := { st.cur with rprops := some ([] : List (Str × JsonVal)) }
          .ok { st with fld := some f, inProps := true, cur := cur2 }
        else
          let tv := jsTrim kv.2
          let cur2 := { st.cur with
            rflds := fldSet st.cur.rflds f (if tv = [] then [] else [tv]) }
          .ok { st with fld := some f, inProps := false, cur := cur2 }
      | none =>
        match st.fld with
        | none => .ok st
        | some f =>
          if st.inProps then
            match propertyMatch line with
            | some kv =>
              match st.cur.rprops with
              | some o => do
                let o2 ← setDotted o kv.1 kv.2
                .ok { st with cur := { st.cur with rprops := some o2 } }
              | none => .error ()
            | none => .ok st
          else
            let t := jsTrim line
            if t = [] then .ok st
            else
              match fldLookup st.cur.rflds f with
              | some ls => .ok { st with cur :=
                  { st.cur with rflds := fldSet st.cur.rflds f (ls ++ [t]) } }
              | none => .error ()

/-- Split on `\r?\n`: split at every newline, dropping one carriage
return right before it. -/
def splitLines (l : Str) : List Str :=
  match l with
  | [] => [[]]
  | '\n' :: t => [] :: splitLines t
  | c :: t =>
    match splitLines t with
    | [] => [[c]]
    | h :: r => (if c = '\r' && h = [] && r ≠ [] then h else c :: h) :: r

/-- Tab normalisation: each tab becomes four spaces. -/
def expandTabs (l : Str) : Str :=
  match l with
  | [] => []
  | c :: t =>
    (if c = '\t' then strL "    " else [c]) ++ expandTabs t

/-- Finalise a raw device: the caps field, when present, is post-processed
into structured caps with falsy (unmatched) lines dropped. -/
def finishDevice (d : RawDevice) : GSTDevice :=
  ⟨d.rtype, d.rprops, (fldLookup d.rflds (strL "caps")).map
    (fun ls => ls.filterMap capLineToCap)⟩

/-- Model of `parseGstDevices` (the default export of parse.ts): split
into lines, drop empty ones, normalise tabs, run the line machine, then
post-process every pushed device. -/
def parseGstDevices (output : Str) : Except Unit (List GSTDevice) := do
  let lines := ((splitLines output).filter (fun x => x.length > 0)).map expandTabs
  let st ← lines.foldlM stepLine ⟨[], RawDevice.empty, false, none, false⟩
  .ok ((st.devices ++ (if st.pushed then [st.cur] else [])).map finishDevice)

/-!
Model of src/src/index.ts: capability-to-format conversion
(`getCameras`), format selection (`startCamera`), the kill machinery
(`killProcess`, `killProcesses`), the restart route, the stdin control
writes (`writeLn`) and the routes that broadcast them, and the
camera-name map.
-/

/-- A resolved capture format (the `VideoFormat` interface). Width,
height and fps are JavaScript numbers: `getCameras` only rules out NaN,
so infinite values can and do occur. -/
structure VideoFormat where
  pixelFormat : Str
  width : JsNum
  height : JsNum
  fps : JsNum
deriving DecidableEq, Repr

/-- A discovered camera (the `CameraProperties` interface): the
`properties.device.path` value and the usable formats. -/
structure CameraProperties where
  path : JsonVal
  formats : List VideoFormat

/-- First-occurrence lookup of a capability parameter
(`c.parameters.<name>`). -/
def pLookup (ps : List (Str × CapParamObj)) (k : Str) : Option CapParamObj :=
  match ps with
  | [] => none
  | kv :: t => if kv.1 = k then some kv.2 else pLookup t k

/-- The per-cap body of the `getCameras` mapping: derive width, height
and frame rate, excluding the cap (`none`) whenever a NaN shows up. The
frame-rate branch mirrors the source exactly: an atom `framerate` is
split on `/` and must have exactly two parts; otherwise the source reads
`c.parameters.fps.type` with no optional chaining, so a missing `fps`
parameter is a thrown TypeError (`Except.error`). -/
def capToFormat (c : GSTCap) : Except Unit (Option VideoFormat) :=
  let width :=
    match pLookup c.parameters (strL "width") with
    | some ⟨_, some (.atom v)⟩ => jsToNumber v
    | _ => JsNum.nan
  if width.isNaN then .ok none
  else
    let height :=
      match pLookup c.parameters (strL "height") with
      | some ⟨_, some (.atom v)⟩ => jsToNumber v
      | _ => JsNum.nan
    if height.isNaN then .ok none
    else
      match pLookup c.parameters (strL "framerate") with
      | some ⟨_, some (.atom v)⟩ =>
        match splitSlash v with
        | [a, b] =>
          let fps := jsDiv (jsToNumber a) (jsToNumber b)
          if fps.isNaN then .ok none
          else .ok (some ⟨c.type, width, height, fps⟩)
        | _ => .ok none
      | _ =>
        match pLookup c.parameters (strL "fps") with
        | none => .error ()
        | some fobj =>
          match fobj.val with
          | some (.range _ _ mx mxd _) =>
            let fps := jsDiv (jsToNumber (mx.getD [])) (jsToNumber (mxd.getD []))
            if fps.isNaN then .ok none
            else .ok (some ⟨c.type, width, height, fps⟩)
          | _ =>
            let fps := JsNum.nan
            if fps.isNaN then .ok none
            else .ok (some ⟨c.type, width, height, fps⟩)

/-- Map `capToFormat` over a device's caps and keep the usable formats.
An exception from any cap propagates. -/
def capsFormats (caps : List GSTCap) : Except Unit (List VideoFormat) := do
  let rs ← caps.mapM capToFormat
  .ok (rs.filterMap id)

/-- Extraction of `d.properties?.device?.path`: optional chaining returns
`none` at any missing step, and property access on a string leaf is
`undefined`, not an error. -/
def devicePath (d : GSTDevice) : Option JsonVal :=
  match d.properties with
  | none => none
  | some props =>
    match objLookup props (strL "device") with
    | some (.obj sub) => objLookup sub (strL "path")
    | _ => none

/-- The per-device body of the `getCameras` mapping: devices without a
path are dropped, caps are converted (possibly throwing), and a device
with no usable format is dropped. -/
def deviceToCamera (d : GSTDevice) : Except Unit (Option CameraProperties) :=
  match devicePath d with
  | none => .ok none
  | some p =>
    match d.caps with
    | none => .ok none
    | some caps => do
      let formats ← capsFormats caps
      if formats.length = 0 then .ok none
      else .ok (some ⟨p, formats⟩)

/-- The mapping-and-filtering pass of `getCameras` over parsed devices. -/
def getCamerasPost (devices : List GSTDevice) :
    Except Unit (List CameraProperties) := do
  let rs ← devices.mapM deviceToCamera
  .ok (rs.filterMap id)

/-- Failure modes of the discovery pipeline. -/
inductive CamError where
  | execFailed : CamError
  | parseFailed : CamError
  | typeError : CamError
deriving DecidableEq, Repr

/-- Model of `getCameras`: `execAsync` either rejects (non-zero exit of
the enumeration tool — the awaited promise throws out of the function) or
resolves with the captured stdout, which is parsed and post-processed. -/
def getCameras (execResult : Except Unit Str) :
    Except CamError (List CameraProperties) :=
  match execResult with
  | .error _ => .error .execFailed
  | .ok out =>
    match parseGstDevices out with
    | .error _ => .error .parseFailed
    | .ok devices =>
      match getCamerasPost devices with
      | .error _ => .error .typeError
      | .ok cams => .ok cams

/-- The filter chain of `startCamera`: pixel format `image/jpeg`
(lower-cased comparison), then width 1920 and height 1080 under
JavaScript strict number equality. -/
def jpegFilter (formats : List VideoFormat) : List VideoFormat :=
  (formats.filter (fun c => lowerStr c.pixelFormat = strL "image/jpeg")).filter
    (fun c => jsEqb c.width (.fin 1920) && jsEqb c.height (.fin 1080))

/-- The format-selection portion of `startCamera`: `null` on an empty
filtered set, otherwise `reduce((a, b) => a.fps > b.fps ? a : b)` — a
left fold seeded with the first element whose strict comparison keeps the
accumulator only when strictly greater, so a tie moves to the later
element. The spawn of the streaming binary with the chosen format is
environment interaction and is not modelled. -/
def selectFormat (formats : List VideoFormat) : Option VideoFormat :=
  match jpegFilter formats with
  | [] => none
  | f :: rest => some (rest.foldl (fun a b => if jsGt a.fps b.fps then a else b) f)

/-- Model of a stdin stream handle: whether it is writable and whether
the flushed-write callback reports an error (the latter is an environment
oracle; a synchronous throw of `write` is folded into it, both reject). -/
structure StdinState where
  writable : Bool
  writeErr : Bool
deriving DecidableEq, Repr

/-- Model of a `ChildProcess` as observed by the supervisor: the OS pid,
the recorded exit and signal codes, the `killed` flag, the stdin handle,
and the environment oracle saying whether a terminal event
(exit/error/close/disconnect) fires within the 2-second kill timeout. -/
structure ChildProc where
  pid : Option Int
  exitCode : Option Int
  signalCode : Option Str
  killed : Bool
  exitsWithin2s : Bool
  stdin : Option StdinState
deriving DecidableEq, Repr

/-- The `CameraProcess` record: assigned port and process handle. -/
structure CameraProcess where
  port : Nat
  proc : ChildProc
deriving DecidableEq, Repr

/-- The live-process map, keyed by process identifier in insertion
order. -/
abbrev PMap := List (Int × CameraProcess)

/-- Outcome of an awaited promise. -/
inductive Settled where
  | fulfilled : Settled
  | rejected : Settled
deriving DecidableEq, Repr

/-- Model of `killProcess`: resolve immediately when an exit or signal
code is already recorded (no signal is sent); otherwise send the signal
and settle with the first terminal event, or reject when the 2-second
timer fires first. -/
def killProcess (c : ChildProc) : Settled :=
  if c.exitCode.isSome || c.signalCode.isSome then .fulfilled
  else if c.exitsWithin2s then .fulfilled
  else .rejected

/-- `Map.delete` on the live map. -/
def mapDelete (m : PMap) (k : Int) : PMap :=
  m.filter (fun e => decide (e.1 ≠ k))

/-- Result of `killProcesses`: the `Promise.allSettled` array, the map
contents once every handler has run, and the signal each `killProcess`
call received (the explicit `undefined` argument triggers the `SIGINT`
default). -/
structure KillAllOut where
  results : List Settled
  mapAfter : PMap
  signalSent : Str
deriving DecidableEq, Repr

/-- Model of `killProcesses`: iterate over a snapshot of the values; an
entry whose process is already `killed` or has a signal code is deleted
at once and contributes no settled result; every other entry contributes
the settled outcome of its own `killProcess` (the bare `.catch()` passes
rejections through) and is deleted by the `.finally` handler whatever
that outcome was. Deletion keys are `pid ?? -1`. -/
def killProcesses (signal : Option Str) (m : PMap) : KillAllOut :=
  let vals := m.map (fun e => e.2)
  { results := vals.filterMap (fun c =>
      if c.proc.killed || c.proc.signalCode.isSome then none
      else some (killProcess c.proc)),
    mapAfter := vals.foldl (fun acc c => mapDelete acc (c.proc.pid.getD (-1))) m,
    signalSent := signal.getD (strL "SIGINT") }

/-- Observable outcome of the `/restart` route up to the point where
`startCameras` would run: HTTP status, whether `startCameras` is invoked,
the live map after the kill phase, and the kill signal used. -/
structure RestartOut where
  status : Nat
  startAllInvoked : Bool
  mapAfterKills : PMap
  signalSent : Str
deriving DecidableEq, Repr

/-- Model of the `/restart` route: `killProcesses` with no signal
argument; when any result is rejected respond 500 with the failures and
stop; otherwise proceed to `startCameras` (whose spawns depend on the
environment and are not modelled) and respond 200. -/
def restart (m : PMap) : RestartOut :=
  let ka := killProcesses none m
  let failed := ka.results.filter (fun r => decide (r = Settled.rejected))
  if failed.length > 0 then ⟨500, false, ka.mapAfter, ka.signalSent⟩
  else ⟨200, true, ka.mapAfter, ka.signalSent⟩

/-- Model of `writeLn`: reject when stdin is absent or not writable, or
when the write callback reports an error; resolve once the write is
flushed. The command text does not influence the outcome. -/
def writeLn (c : ChildProc) (s : Str) : Except Unit Unit :=
  match c.stdin with
  | none => .error ()
  | some st =>
    if st.writable = false then .error ()
    else if st.writeErr then .error ()
    else .ok ()

/-- Bool view of a write outcome. -/
def writeOk (c : ChildProc) (s : Str) : Bool :=
  match writeLn c s with
  | .ok _ => true
  | .error _ => false

/-- Model of the `/request` route body: write `addclient ip port` to
every live process, catching each failure individually, so every process
is attempted and the route reports one outcome per process. -/
def requestRoute (m : PMap) (ip : Str) : List Settled :=
  m.map (fun e =>
    match writeLn e.2.proc (strL "addclient " ++ ip ++ strL " " ++ natToChars e.2.port) with
    | .ok _ => Settled.fulfilled
    | .error _ => Settled.rejected)

/-- Model of the `/:command(play|pause|stop)` and `/stoprecord` broadcast
loops: a bare awaited `writeLn` per process with no try/catch, so the
first rejection aborts the loop. Returns the keys of the processes
actually written and whether the loop completed. -/
def broadcastCmd (m : PMap) (cmd : Str) : List Int × Bool :=
  match m with
  | [] => ([], true)
  | e :: t =>
    match writeLn e.2.proc cmd with
    | .ok _ =>
      let r := broadcastCmd t cmd
      (e.1 :: r.1, r.2)
    | .error _ => ([], false)

/-- The camera-name store: a JavaScript `Map` object. `Object.assign`
writes plain object properties onto it (`props`), which are disjoint
from the map entries that `Map.get` consults (`entries`). -/
structure CameraNames where
  entries : List (Int × Str)
  props : List (Str × Str)
deriving DecidableEq, Repr

/-- `Map.prototype.get`: consults the internal entries only. -/
def mapGet (n : CameraNames) (k : Int) : Option Str :=
  match n.entries with
  | _ => (n.entries.find? (fun e => decide (e.1 = k))).map (fun e => e.2)

/-- Property assignment on string-keyed records (the effect of
`Object.assign` with a query object). -/
def strAssign (a b : List (Str × Str)) : List (Str × Str) :=
  a.map (fun kv => (kv.1, ((b.lookup kv.1).getD kv.2))) ++
    b.filter (fun kv => (a.lookup kv.1).isNone)

/-- Model of the `/setCameraNames` route: `Object.assign(cameraNames,
req.query)` stores the query pairs as plain properties on the Map
object; the map entries are untouched. -/
def setCameraNames (query : List (Str × Str)) (n : CameraNames) : CameraNames :=
  { n with props := strAssign n.props query }

/-- Model of the `/record` route loop: for the i-th live process, the
display name is the ordinal index when the pid is absent, else the
camera-name entry for the pid with the index as fallback; the file stem
is `session_VideoNAME--DATE` (the date string, produced by `formatDate`
at each iteration, is passed in as one value). Each stem is pushed only
after its `record` write resolves; the first failed write rejects the
route, leaving the stems pushed so far. Returns the pushed stems and
whether the loop completed. -/
def recordRouteGo : PMap → CameraNames → Str → Str → Nat → List Str × Bool
  | [], _, _, _, _ => ([], true)
  | e :: t, names, session, dateStr, i =>
    let nm :=
      match e.2.proc.pid with
      | none => natToChars i
      | some pid => (mapGet names pid).getD (natToChars i)
    let file := session ++ strL "_Video" ++ nm ++ strL "--" ++ dateStr
    match writeLn e.2.proc (strL "record " ++ file) with
    | .ok _ =>
      let r := recordRouteGo t names session dateStr (i + 1)
      (file :: r.1, r.2)
    | .error _ => ([], false)

/-- Entry point of the `/record` loop at ordinal index zero. -/
def recordRoute (m : PMap) (names : CameraNames) (session dateStr : Str) :
    List Str × Bool :=
  recordRouteGo m names session dateStr 0

/-!
Auxiliary definitions for the theorems, and the concrete instances the
counterexamples and witnesses evaluate.
-/

/-- Order embedding of the non-NaN JavaScript numbers into the linear
order with a bottom and a top adjoined to the rationals (NaN is sent to
the bottom as a junk value; every lemma using this carries non-NaN
hypotheses). -/
def toWB : JsNum → WithBot (WithTop ℚ)
  | .nan => ⊥
  | .neginf => ⊥
  | .posinf => ((⊤ : WithTop ℚ) : WithBot (WithTop ℚ))
  | .fin q => (((q : ℚ) : WithTop ℚ) : WithBot (WithTop ℚ))

/-- Left fold keeping the accumulator only when its key is strictly
greater — the abstract shape of the `reduce` in `startCamera`. -/
def foldMax {α β : Type} [LinearOrder β] (k : α → β) (a : α) (l : List α) : α :=
  l.foldl (fun x y => if k y < k x then x else y) a

/-- Bool view of the cap-excluded outcome (`ok none`). -/
def okNoneB (e : Except Unit (Option VideoFormat)) : Bool :=
  match e with
  | .ok none => true
  | _ => false

/-- A writable, error-free stdin handle. -/
def okStdin : StdinState := ⟨true, false⟩

/-- A live process with the given pid whose kill oracle is `t2`. -/
def mkProc (pid : Int) (t2 : Bool) : ChildProc :=
  ⟨some pid, none, none, false, t2, some okStdin⟩

/-- Live process A: terminates within the kill timeout. -/
def exA : CameraProcess := ⟨5000, mkProc 1 true⟩

/-- Live process B: never emits a terminal event within the timeout. -/
def exB : CameraProcess := ⟨5001, mkProc 2 false⟩

/-- Live process C: terminates within the kill timeout. -/
def exC : CameraProcess := ⟨5002, mkProc 3 true⟩

/-- A live map of three processes where only B fails to die. -/
def exMapA : PMap := [(1, exA), (2, exB), (3, exC)]

/-- Live process with pid 10 that dies on request. -/
def exA2 : CameraProcess := ⟨5000, mkProc 10 true⟩

/-- Live process with pid 11 whose kill times out. -/
def exB2 : CameraProcess := ⟨5001, mkProc 11 false⟩

/-- A live map of two processes where the kill of pid 11 fails. -/
def exMap2 : PMap := [(10, exA2), (11, exB2)]

/-- The parse.ts doc-comment capability shape as a structured cap: width
and height atoms and a framerate choice, on a jpeg cap. -/
def capChoice : GSTCap :=
  ⟨strL "image/jpeg",
    [(strL "width", ⟨some (strL "int"), some (.atom (strL "1920"))⟩),
     (strL "height", ⟨some (strL "int"), some (.atom (strL "1080"))⟩),
     (strL "framerate",
       ⟨some (strL "fraction"), some (.choice [strL "30/1", strL "25/1"])⟩)]⟩

/-- A realistic `gst-device-monitor-1.0` transcript whose only device has
a device path and advertises a framerate choice — the very shape shown in
the parse.ts doc comment. -/
def gstDoc : Str := strL
  "Device found:\n\n\tname  : HD Camera\n\tclass : Video/Source\n\tcaps  : image/jpeg, width=(int)1920, height=(int)1080, framerate=(fraction)\x7b 30/1, 25/1 \x7d;\n\tproperties:\n\t\tdevice.api = v4l2\n\t\tdevice.path = /dev/video0\n"

/-- Two jpeg 1920 by 1080 formats with the same frame rate, distinct
only in the letter case of the pixel-format tag. -/
def fmtTieA : VideoFormat := ⟨strL "image/jpeg", .fin 1920, .fin 1080, .fin 30⟩

/-- The tie partner of `fmtTieA`, listed second. -/
def fmtTieB : VideoFormat := ⟨strL "IMAGE/JPEG", .fin 1920, .fin 1080, .fin 30⟩

/-- The format list of the spec testable-properties section: 30 and 60
fps at 1920 by 1080 and a 15 fps low-resolution entry. -/
def wFormats : List VideoFormat :=
  [⟨strL "image/jpeg", .fin 1920, .fin 1080, .fin 30⟩,
   ⟨strL "image/jpeg", .fin 1920, .fin 1080, .fin 60⟩,
   ⟨strL "image/jpeg", .fin 640, .fin 480, .fin 15⟩]

/-- A cap whose framerate fraction has a zero denominator under a nonzero
numerator. -/
def cap30over0 : GSTCap :=
  ⟨strL "image/jpeg",
    [(strL "width", ⟨none, some (.atom (strL "1920"))⟩),
     (strL "height", ⟨none, some (.atom (strL "1080"))⟩),
     (strL "framerate", ⟨none, some (.atom (strL "30/0"))⟩)]⟩

/-- A cap whose framerate fraction has a non-numeric denominator. -/
def capNanDen : GSTCap :=
  ⟨strL "image/jpeg",
    [(strL "width", ⟨none, some (.atom (strL "1920"))⟩),
     (strL "height", ⟨none, some (.atom (strL "1080"))⟩),
     (strL "framerate", ⟨none, some (.atom (strL "30/abc"))⟩)]⟩

/-- A process whose stdin is gone (dead pipe): every write rejects. -/
def exDead : CameraProcess := ⟨5000, ⟨some 1, none, none, false, true, none⟩⟩

/-- A process with a healthy stdin: every write resolves. -/
def exLive : CameraProcess := ⟨5001, mkProc 2 true⟩

/-- A live map whose first process has a dead stdin and whose second is
healthy. -/
def exMap9 : PMap := [(1, exDead), (2, exLive)]

/-- The camera-name store after `/setCameraNames?123=Front` on a fresh
store. -/
def exNames1 : CameraNames := setCameraNames [(strL "123", strL "Front")] ⟨[], []⟩

/-- One live process whose pid 123 matches the label set in
`exNames1`. -/
def exMap6 : PMap := [(123, ⟨5000, mkProc 123 true⟩)]

/-- A well-formed parameter text used to witness the shrinking of the
parser remainder. -/
def w10 : Str := strL "width=1920, height=1080"

/-- The record entry `capParseStep` builds for the head of `w10`. -/
def w10e : Str × CapParamObj := (strL "width", ⟨none, some (.atom (strL "1920"))⟩)

/-- The remainder `capParseStep` passes to the recursive call on `w10`. -/
def w10r : Str := strL ", height=1080"

/-- The malformed parameter text of the C7 witness. -/
def s7 : Str := strL "framerate=(fraction)\x7b 30/1"

/-- The head-regexp captures on `s7`. -/
def nm7 : NameMatch := ⟨strL "framerate", some (strL "fraction"), strL "\x7b 30/1"⟩

instance {ε α : Type} [DecidableEq ε] [DecidableEq α] : DecidableEq (Except ε α) :=
  fun a b =>
    match a, b with
    | .ok x, .ok y =>
      if h : x = y then .isTrue (by rw [h])
      else .isFalse (by intro hc; cases hc; exact h rfl)
    | .error x, .error y =>
      if h : x = y then .isTrue (by rw [h])
      else .isFalse (by intro hc; cases hc; exact h rfl)
    | .ok _, .error _ => .isFalse (by intro hc; cases hc)
    | .error _, .ok _ => .isFalse (by intro hc; cases hc)

/-- Projection of the discovery outcome to its error, when it failed. -/
def discoveryErr (e : Except CamError (List CameraProperties)) : Option CamError :=
  match e with
  | .error c => some c
  | .ok _ => none

/-- Number of discovered cameras, when discovery succeeded. -/
def discoveryCount (e : Except CamError (List CameraProperties)) : Option Nat :=
  match e with
  | .ok l => some l.length
  | .error _ => none

/-!
Helper lemmas.
-/

/-- takeWhile never lengthens a list. -/
theorem len_takeWhile_le (p : Char → Bool) (l : Str) :
    (l.takeWhile p).length ≤ l.length := by
  induction l with
  | nil => simp
  | cons c t ih =>
    by_cases h : p c
    · simpa [List.takeWhile_cons, h] using Nat.succ_le_succ ih
    · simp [List.takeWhile_cons, h]

/-- The index of the first equals sign is inside the string. -/
theorem findEqIdx_lt : ∀ (s : Str) (i : Nat), findEqIdx s = some i → i < s.length := by
  intro s
  induction s with
  | nil => intro i h; simp [findEqIdx] at h
  | cons c t ih =>
    intro i h
    unfold findEqIdx at h
    by_cases hc : c = '='
    · rw [if_pos hc] at h
      cases h
      simp
    · rw [if_neg hc] at h
      cases hfind : findEqIdx t with
      | none => rw [hfind] at h; cases h
      | some j =>
        rw [hfind] at h
        simp at h
        have := ih j hfind
        simp
        omega

/-- The remainder after the optional type-hint group is no longer than
its input. -/
theorem hintAndRest_len (a : Str) : (hintAndRest a).2.length ≤ a.length := by
  unfold hintAndRest
  split
  next c t =>
    dsimp only
    split
    next t2 heq =>
      have h1 : (List.drop (List.takeWhile isLowerAZ t).length t).length = t2.length + 1 := by
        rw [heq]; simp
      have h2 : (List.drop (List.takeWhile isLowerAZ t).length t).length ≤ t.length := by
        simp
      simp only
      simp
      omega
    next heq => simp
  next => simp

/-- The remainder captured by the parameter-head regexp is strictly
shorter than its input. -/
theorem nameMatch_rest_lt (s : Str) (nm : NameMatch)
    (h : nameMatch s = some nm) : nm.rest.length < s.length := by
  unfold nameMatch at h
  cases hidx : findEqIdx s with
  | none => rw [hidx] at h; exact absurd h (by simp)
  | some i =>
    rw [hidx] at h
    have hi : i < s.length := findEqIdx_lt s i hidx
    cases h
    have h1 : ((hintAndRest (s.drop (i + 1))).2.takeWhile notLT).length ≤
        (hintAndRest (s.drop (i + 1))).2.length := len_takeWhile_le _ _
    have h2 : (hintAndRest (s.drop (i + 1))).2.length ≤ (s.drop (i + 1)).length :=
      hintAndRest_len _
    have h3 : (s.drop (i + 1)).length = s.length - (i + 1) := by simp
    simp only
    omega

/-- The remainder captured by the choice regexp is no longer than its
input. -/
theorem choiceMatch_rest_le (r : Str) (inner r2 : Str)
    (h : choiceMatch r = some (inner, r2)) : r2.length ≤ r.length := by
  unfold choiceMatch at h
  split at h
  next c t =>
    split at h
    next hc =>
      dsimp only at h
      split at h
      next x t2 heq =>
        cases h
        have h1 : (List.drop (List.takeWhile (fun x => x ≠ rbrace) t).length t).length =
            t2.length + 1 := by rw [heq]; simp
        have h2 : (List.drop (List.takeWhile (fun x => x ≠ rbrace) t).length t).length ≤
            t.length := by simp
        have h3 : (t2.takeWhile notLT).length ≤ t2.length := len_takeWhile_le _ _
        simp
        omega
      next => cases h
    next => cases h
  next => cases h

/-- The remainder of the optional denominator group is no longer than its
input. -/
theorem denomOpt_len (t : Str) : (denomOpt t).2.length ≤ t.length := by
  unfold denomOpt
  split
  next u =>
    have := len_takeWhile_le isDigit u
    simp
    omega
  next => simp

/-- The remainder of the optional step group is no longer than its
input. -/
theorem stepOpt_len (t : Str) : (stepOpt t).2.length ≤ t.length := by
  unfold stepOpt
  split
  next u =>
    have := len_takeWhile_le isDigit u
    simp
    omega
  next => simp

/-- The remainder captured by a successful range match at the head is no
longer than the input. -/
theorem rangeAt_rest_le (l : Str) (rp : RangeParts)
    (h : rangeAt l = some rp) : rp.rest.length ≤ l.length := by
  unfold rangeAt at h
  split at h
  next t =>
    try dsimp only at h
    split at h
    next t3 heq3 =>
      try dsimp only at h
      split at h
      next t7 heq7 =>
        cases h
        have h1 : (denomOpt (t.drop (t.takeWhile isDigit).length)).2.length ≤
            (t.drop (t.takeWhile isDigit).length).length := denomOpt_len _
        have h2 : (t.drop (t.takeWhile isDigit).length).length ≤ t.length := by simp
        have h3 : (denomOpt (t.drop (t.takeWhile isDigit).length)).2.length =
            t3.length + 2 := by rw [heq3]; simp
        have h4 : (denomOpt (t3.drop (t3.takeWhile isDigit).length)).2.length ≤
            (t3.drop (t3.takeWhile isDigit).length).length := denomOpt_len _
        have h5 : (t3.drop (t3.takeWhile isDigit).length).length ≤ t3.length := by simp
        have h6 : (stepOpt (denomOpt (t3.drop (t3.takeWhile isDigit).length)).2).2.length ≤
            (denomOpt (t3.drop (t3.takeWhile isDigit).length)).2.length := stepOpt_len _
        have h7 : (stepOpt (denomOpt (t3.drop (t3.takeWhile isDigit).length)).2).2.length =
            t7.length + 2 := by rw [heq7]; simp
        have h8 : (t7.takeWhile notLT).length ≤ t7.length := len_takeWhile_le _ _
        simp
        omega
      next => cases h
    next => cases h
  next => cases h

/-- The remainder captured by the scanning range match is no longer than
the input. -/
theorem rangeMatch_rest_le : ∀ (l : Str) (rp : RangeParts),
    rangeMatch l = some rp → rp.rest.length ≤ l.length := by
  intro l
  induction l with
  | nil => intro rp h; simp [rangeMatch] at h
  | cons c t ih =>
    intro rp h
    unfold rangeMatch at h
    cases hat : rangeAt (c :: t) with
    | some rp2 =>
      rw [hat] at h
      cases h
      exact rangeAt_rest_le _ _ hat
    | none =>
      rw [hat] at h
      have := ih rp h
      simp
      omega

/-- The remainder passed to the recursive call of the parameter parser is
strictly shorter than the input. -/
theorem capParseStep_rest_lt (s : Str) (e : Str × CapParamObj) (r : Str)
    (h : capParseStep s = some (e, some r)) : r.length < s.length := by
  unfold capParseStep at h
  cases hnm : nameMatch s with
  | none => rw [hnm] at h; cases h
  | some nm =>
    rw [hnm] at h
    have hrest := nameMatch_rest_lt s nm hnm
    dsimp only at h
    split at h
    next hbrace =>
      cases hch : choiceMatch nm.rest with
      | none => rw [hch] at h; cases h
      | some pr =>
        rw [hch] at h
        cases h
        have := choiceMatch_rest_le nm.rest pr.1 pr.2 (by rw [hch])
        omega
    next hbrace =>
      split at h
      next hbrack =>
        cases hrm : rangeMatch nm.rest with
        | none => rw [hrm] at h; cases h
        | some rp =>
          rw [hrm] at h
          cases h
          have := rangeMatch_rest_le nm.rest rp hrm
          omega
      next hbrack =>
        cases h
        have h1 : ((nm.rest.drop (nm.rest.takeWhile notValSep).length).takeWhile notLT).length ≤
            (nm.rest.drop (nm.rest.takeWhile notValSep).length).length := len_takeWhile_le _ _
        have h2 : (nm.rest.drop (nm.rest.takeWhile notValSep).length).length ≤
            nm.rest.length := by simp
        omega

/-- The fuel of the parameter parser is irrelevant once it exceeds the
input length. -/
theorem parseCapParametersGo_stable : ∀ (f : Nat), ∀ (s : Str) (g : Nat),
    s.length < f → s.length < g →
    parseCapParametersGo f s = parseCapParametersGo g s := by
  intro f
  induction f with
  | zero => intro s g hf; omega
  | succ f ih =>
    intro s g hf hg
    cases g with
    | zero => omega
    | succ g =>
      show parseCapParametersGo (f + 1) s = parseCapParametersGo (g + 1) s
      unfold parseCapParametersGo
      cases hstep : capParseStep s with
      | none => rfl
      | some pr =>
        cases hpr : pr.2 with
        | none => simp [hstep, hpr]
        | some r =>
          have hlt : r.length < s.length := by
            apply capParseStep_rest_lt s pr.1 r
            rw [hstep, ← hpr]
          have := ih r g (by omega) (by omega)
          simp [hstep, hpr, this]

/-- Assigning the empty record changes nothing. -/
theorem objAssignP_nil (a : List (Str × CapParamObj)) : objAssignP a [] = a := by
  unfold objAssignP
  simp

/-- Division by NaN yields NaN. -/
theorem jsDiv_nan_right (x : JsNum) : jsDiv x .nan = .nan := by
  cases x <;> rfl

/-!
Claim theorems.
-/

/-- Claim C10: the capability-parameter parser terminates on every input —
each recursive call consumes a strictly shorter remainder string (so fuel
beyond the input length is irrelevant), and an undefined remainder
returns the empty parameter record immediately. -/
theorem parseCapParameters_terminates :
    (∀ (s : Str) (e : Str × CapParamObj) (r : Str),
      capParseStep s = some (e, some r) → r.length < s.length) ∧
    (∀ (s : Str) (f : Nat), s.length < f →
      parseCapParametersGo f s = parseCapParametersGo (s.length + 1) s) ∧
    parseCapParameters none = [] := by
  refine ⟨capParseStep_rest_lt, ?_, rfl⟩
  intro s f hf
  exact parseCapParametersGo_stable f s (s.length + 1) hf (by omega)

/-- Witness for C10 at a concrete parameter text: the step consumes the
first parameter and the remainder is strictly shorter. -/
theorem parseCapParameters_terminates_witness :
    capParseStep w10 = some (w10e, some w10r) ∧ w10r.length < w10.length :=
  ⟨by decide, parseCapParameters_terminates.1 w10 w10e w10r (by decide)⟩

/-- Counterexample to C7 as stated: on parameter text whose choice value
lacks the closing brace, the parser returns the parameters parsed before
the malformed one plus a valueless entry for it — not an empty parameter
set. -/
theorem parseCapParameters_not_empty_cex :
    parseCapParameters (some (strL "width=640, framerate=\x7b 30/1")) =
      [(strL "width", ⟨none, some (.atom (strL "640"))⟩),
       (strL "framerate", ⟨none, none⟩)] ∧
    parseCapParameters (some (strL "width=640, framerate=\x7b 30/1")) ≠ [] :=
  ⟨by decide, by decide⟩

/-- Claim C7 (amended): the parser never raises on a malformed choice
value — it stops consuming there, the malformed parameter is kept with a
type hint but no value, the text after it is dropped, and cap lines are
processed independently so other caps and devices are unaffected. -/
theorem parseCapParameters_malformed_amended :
    (∀ (s : Str) (nm : NameMatch), nameMatch s = some nm →
      nm.rest.head? = some lbrace → choiceMatch nm.rest = none →
      parseCapParameters (some s) = [(nm.name, ⟨jsTruthyOpt nm.typeHint, none⟩)]) ∧
    (∀ (pre post : List Str) (bad : Str),
      (pre ++ bad :: post).filterMap capLineToCap =
        pre.filterMap capLineToCap ++ (capLineToCap bad).toList ++
          post.filterMap capLineToCap) := by
  constructor
  · intro s nm h1 h2 h3
    have hstep : capParseStep s =
        some ((nm.name, ⟨jsTruthyOpt nm.typeHint, none⟩), none) := by
      unfold capParseStep
      rw [h1]
      dsimp only
      rw [if_pos h2, h3]
    show parseCapParametersGo (s.length + 1) s = _
    unfold parseCapParametersGo
    rw [hstep]
    exact objAssignP_nil _
  · intro pre post bad
    rw [List.filterMap_append]
    cases hb : capLineToCap bad <;> simp [List.filterMap_cons, hb]

/-- Witness for C7 at the concrete malformed text
`framerate=(fraction)LBRACE 30/1`. -/
theorem parseCapParameters_malformed_amended_witness :
    nameMatch s7 = some nm7 ∧ nm7.rest.head? = some lbrace ∧
    choiceMatch nm7.rest = none ∧
    parseCapParameters (some s7) =
      [(strL "framerate", ⟨some (strL "fraction"), none⟩)] :=
  ⟨by decide, by decide, by decide,
    parseCapParameters_malformed_amended.1 s7 nm7 (by decide) (by decide) (by decide)⟩

/-- Unfolding of the per-device format computation at a cons cell: the
head cap contributes its own derived format (when any) in front of the
formats of the tail, and an exception from either side propagates. -/
theorem capsFormats_cons (a : GSTCap) (L : List GSTCap) :
    capsFormats (a :: L) =
      (capToFormat a).bind
        (fun r => (capsFormats L).map (fun fs => r.toList ++ fs)) := by
  unfold capsFormats
  rw [List.mapM_cons]
  cases ha : capToFormat a with
  | error e => rfl
  | ok r =>
    cases hm : L.mapM capToFormat with
    | error e => rfl
    | ok rs =>
      show Except.ok (List.filterMap id (r :: rs)) =
        Except.ok (r.toList ++ List.filterMap id rs)
      cases r <;> simp [List.filterMap_cons]

/-- A cap excluded by the format derivation contributes nothing, wherever
it sits among the caps of a device. -/
theorem capsFormats_drop_none (c : GSTCap) (hc : capToFormat c = .ok none) :
    ∀ (l1 l2 : List GSTCap), capsFormats (l1 ++ c :: l2) = capsFormats (l1 ++ l2) := by
  intro l1
  induction l1 with
  | nil =>
    intro l2
    rw [List.nil_append, List.nil_append, capsFormats_cons, hc]
    cases hfs : capsFormats l2 with
    | error e => rfl
    | ok fs => show Except.ok ([] ++ fs) = Except.ok fs; rw [List.nil_append]
  | cons a t ih =>
    intro l2
    rw [List.cons_append, List.cons_append, capsFormats_cons, capsFormats_cons, ih l2]

/-- Claim C8 (amended): a framerate fraction whose denominator does not
parse as a number derives a NaN frame rate, so exactly that Cap is
excluded and the rest of the device is unaffected. (A zero denominator
with a nonzero numerator instead derives an infinity and the Cap is
retained — see the counterexample.) -/
theorem capToFormat_nan_denominator_amended (c : GSTCap) (vt : Option Str)
    (v n d : Str)
    (h1 : pLookup c.parameters (strL "framerate") = some ⟨vt, some (.atom v)⟩)
    (h2 : splitSlash v = [n, d])
    (h3 : (jsToNumber d).isNaN = true) :
    capToFormat c = .ok none ∧
    ∀ (l1 l2 : List GSTCap),
      capsFormats (l1 ++ c :: l2) = capsFormats (l1 ++ l2) := by
  have hd : jsToNumber d = .nan := by
    cases hx : jsToNumber d <;> rw [hx] at h3 <;> simp [JsNum.isNaN] at h3
  have hmain : capToFormat c = .ok none := by
    unfold capToFormat
    rw [h1]
    dsimp only
    rw [h2]
    dsimp only
    rw [hd, jsDiv_nan_right]
    simp [JsNum.isNaN]
  exact ⟨hmain, capsFormats_drop_none c hmain⟩

/-- Counterexample to C8 as stated: the fraction `30/0` derives the frame
rate Infinity, which passes the NaN check, so the Cap is retained with an
infinite frame rate instead of being excluded. -/
theorem capToFormat_zero_denominator_cex :
    capToFormat cap30over0 =
      .ok (some ⟨strL "image/jpeg", .fin 1920, .fin 1080, .posinf⟩) ∧
    okNoneB (capToFormat cap30over0) = false :=
  ⟨by decide, by decide⟩

/-- Witness for C8 at a cap whose framerate denominator is the
non-numeric text `abc`. -/
theorem capToFormat_nan_denominator_amended_witness :
    pLookup capNanDen.parameters (strL "framerate") =
      some ⟨none, some (.atom (strL "30/abc"))⟩ ∧
    splitSlash (strL "30/abc") = [strL "30", strL "abc"] ∧
    (jsToNumber (strL "abc")).isNaN = true ∧
    capToFormat capNanDen = .ok none :=
  ⟨by decide, by decide, by decide,
    (capToFormat_nan_denominator_amended capNanDen none (strL "30/abc")
      (strL "30") (strL "abc") (by decide) (by decide) (by decide)).1⟩

/-- Claim C3 (code bug): a Cap whose framerate is not an atom — for
example the framerate choice shown in the parse.ts doc comment — makes
the conversion read `c.parameters.fps.type` without optional chaining;
the parser never emits an `fps` parameter, so the access throws a
TypeError and discovery rejects instead of excluding the Cap. The second
conjunct evaluates the whole pipeline on a realistic transcript. -/
theorem getCameras_framerate_choice_raises :
    capToFormat capChoice = .error () ∧
    discoveryErr (getCameras (.ok gstDoc)) = some .typeError :=
  ⟨by decide, by decide⟩

/-- Counterexample to C5 as stated: a non-zero exit of the enumeration
tool rejects `execAsync`, and `getCameras` propagates that rejection
instead of yielding an empty device list. -/
theorem getCameras_exec_error_cex :
    discoveryErr (getCameras (.error ())) = some .execFailed ∧
    getCameras (.error ()) ≠ .ok [] := by
  have h1 : discoveryErr (getCameras (.error ())) = some .execFailed := by decide
  refine ⟨h1, ?_⟩
  intro hcon
  rw [hcon] at h1
  simp [discoveryErr] at h1

/-- Claim C5 (amended): discovery tolerates empty tool output by yielding
an empty device list (so nothing is spawned), but a non-zero tool exit
propagates as an error out of discovery rather than yielding an empty
list. -/
theorem getCameras_empty_output_amended :
    discoveryCount (getCameras (.ok (strL ""))) = some 0 ∧
    discoveryErr (getCameras (.error ())) = some .execFailed :=
  ⟨by decide, by decide⟩

/-- Claim C6 (code bug): `/setCameraNames` assigns the query onto the
`Map` object with `Object.assign`, which creates plain properties and
never touches the map entries; `Map.get` finds nothing, so a later
`/record` falls back to the ordinal index for the file-name stem even for
a process whose pid was just labelled. -/
theorem setCameraNames_label_ignored :
    mapGet exNames1 123 = none ∧
    exNames1.props = [(strL "123", strL "Front")] ∧
    (recordRoute exMap6 exNames1 (strL "Sess") (strL "2026-02-03-04-05-06")).1 =
      [strL "Sess_Video0--2026-02-03-04-05-06"] :=
  ⟨by decide, by decide, by decide⟩

/-- Counterexample to C9 as stated: on a map whose first process has a
dead stdin, the play broadcast aborts before reaching the second process
even though a write to it would succeed; only the add-client route
attempts every process. -/
theorem broadcast_abort_cex :
    broadcastCmd exMap9 (strL "play") = ([], false) ∧
    writeLn exLive.proc (strL "play") = .ok () ∧
    requestRoute exMap9 (strL "10") = [.rejected, .fulfilled] :=
  ⟨by decide, by decide, by decide⟩

/-- Claim C9 (amended): the add-client broadcast catches per-process
write failures and always attempts every live process, reporting one
outcome per process; the play/pause/stop (and record/stop-record)
broadcasts perform bare awaited writes, so exactly the longest prefix of
processes with succeeding writes is written and the broadcast completes
only when every write succeeds. -/
theorem broadcast_per_route_amended (m : PMap) (ip cmd : Str) :
    (requestRoute m ip).length = m.length ∧
    broadcastCmd m cmd =
      ((m.takeWhile (fun e => writeOk e.2.proc cmd)).map (fun e => e.1),
        m.all (fun e => writeOk e.2.proc cmd)) := by
  constructor
  · simp [requestRoute]
  · induction m with
    | nil => rfl
    | cons e t ih =>
      cases hw : writeLn e.2.proc cmd with
      | ok v =>
        cases v
        have hwo : writeOk e.2.proc cmd = true := by simp [writeOk, hw]
        simp [broadcastCmd, hw, List.takeWhile_cons, hwo, List.all_cons, ih]
      | error v =>
        cases v
        have hwo : writeOk e.2.proc cmd = false := by simp [writeOk, hw]
        simp [broadcastCmd, hw, List.takeWhile_cons, hwo, List.all_cons]

/-- Folding `Map.delete` over a list of processes filters out every entry
whose key equals some deleted pid. -/
theorem foldl_mapDelete (cs : List CameraProcess) : ∀ (acc : PMap),
    cs.foldl (fun a c => mapDelete a (c.proc.pid.getD (-1))) acc =
      acc.filter (fun e => cs.all (fun c => decide (e.1 ≠ c.proc.pid.getD (-1)))) := by
  induction cs with
  | nil => intro acc; simp
  | cons c t ih =>
    intro acc
    rw [List.foldl_cons, ih]
    unfold mapDelete
    rw [List.filter_filter]
    apply List.filter_congr
    intro e he
    rw [List.all_cons, Bool.and_comm]

/-- When every entry of the live map is keyed by its own pid, `killAll`
leaves the map empty — deletion is unconditional, kill failures
included. -/
theorem killProcesses_mapAfter_nil (sig : Option Str) (m : PMap)
    (h : ∀ e ∈ m, e.2.proc.pid = some e.1) :
    (killProcesses sig m).mapAfter = [] := by
  unfold killProcesses
  dsimp only
  rw [foldl_mapDelete]
  rw [List.filter_eq_nil_iff]
  intro e he hall
  have hmem : e.2 ∈ m.map (fun x => x.2) := List.mem_map_of_mem _ he
  have h2 := (List.all_eq_true.mp hall) e.2 hmem
  rw [h e he] at h2
  simp at h2

/-- Claim C1 (amended): `killAll` settles one kill per non-terminal entry
independently — the settled array lists each entry's own outcome, so one
failure cannot suppress another's result — already-terminal entries are
removed without signaling, and afterwards the map is empty: every entry
is deleted whatever its kill outcome, so failed kills do not stay in the
map. -/
theorem killProcesses_settleAll_amended (sig : Option Str) (m : PMap)
    (h : ∀ e ∈ m, e.2.proc.pid = some e.1) :
    (killProcesses sig m).results = m.filterMap (fun e =>
      if e.2.proc.killed || e.2.proc.signalCode.isSome then none
      else some (killProcess e.2.proc)) ∧
    (killProcesses sig m).mapAfter = [] := by
  refine ⟨?_, killProcesses_mapAfter_nil sig m h⟩
  unfold killProcesses
  dsimp only
  rw [List.filterMap_map]
  rfl

/-- Counterexample to C1 as stated: with three live processes of which
only B fails to die in time, the settled results single out B as the
failure, yet the map after the call is empty rather than retaining B's
entry. -/
theorem killProcesses_timeout_entry_not_retained :
    (killProcesses none exMapA).results =
      [Settled.fulfilled, Settled.rejected, Settled.fulfilled] ∧
    (killProcesses none exMapA).mapAfter = [] ∧
    (killProcesses none exMapA).mapAfter ≠ [(2, exB)] :=
  ⟨by decide, by decide, by decide⟩

/-- Witness for C1 at the three-process map. -/
theorem killProcesses_settleAll_amended_witness :
    (∀ e ∈ exMapA, e.2.proc.pid = some e.1) ∧
    ((killProcesses none exMapA).results = exMapA.filterMap (fun e =>
        if e.2.proc.killed || e.2.proc.signalCode.isSome then none
        else some (killProcess e.2.proc)) ∧
      (killProcesses none exMapA).mapAfter = []) :=
  ⟨by decide, killProcesses_settleAll_amended none exMapA (by decide)⟩

/-- A filtered list is nonempty exactly when some element satisfies the
predicate. -/
theorem filter_length_pos_iff_any (p : Settled → Bool) (l : List Settled) :
    (0 < (l.filter p).length) ↔ l.any p = true := by
  induction l with
  | nil => simp
  | cons a t ih => by_cases hp : p a <;> simp [hp, ih]

/-- Claim C2 (amended): restart kills all with the SIGINT default; when
any kill was rejected it responds 500 and never invokes startAll; when
every kill settled fulfilled it proceeds to startAll — and in both cases
the live map after the kill phase is empty (keyed-by-pid maps), not the
previous map minus the successful deaths. -/
theorem restart_no_respawn_amended (m : PMap)
    (h : ∀ e ∈ m, e.2.proc.pid = some e.1) :
    ((killProcesses none m).results.any (fun r => decide (r = Settled.rejected)) = true →
      restart m = ⟨500, false, [], strL "SIGINT"⟩) ∧
    ((killProcesses none m).results.any (fun r => decide (r = Settled.rejected)) = false →
      restart m = ⟨200, true, [], strL "SIGINT"⟩) := by
  have hmap : (killProcesses none m).mapAfter = [] := killProcesses_mapAfter_nil none m h
  constructor
  · intro hany
    have hc : 0 < ((killProcesses none m).results.filter
        (fun r => decide (r = Settled.rejected))).length :=
      (filter_length_pos_iff_any _ _).mpr hany
    unfold restart
    dsimp only
    rw [if_pos hc, hmap]
    rfl
  · intro hany
    have hc : ¬ 0 < ((killProcesses none m).results.filter
        (fun r => decide (r = Settled.rejected))).length := by
      rw [filter_length_pos_iff_any, hany]
      simp
    unfold restart
    dsimp only
    rw [if_neg hc, hmap]
    rfl

/-- Counterexample to C2 as stated: on a two-process map with one stuck
process, restart fails with 500 and never respawns — but the map after
restart is empty, not the stuck entry alone. -/
theorem restart_map_not_partial_cex :
    restart exMap2 = ⟨500, false, [], strL "SIGINT"⟩ ∧
    (restart exMap2).mapAfterKills ≠ [(11, exB2)] :=
  ⟨by decide, by decide⟩

/-- Witness for C2 at the two-process map. -/
theorem restart_no_respawn_amended_witness :
    (∀ e ∈ exMap2, e.2.proc.pid = some e.1) ∧
    (((killProcesses none exMap2).results.any (fun r => decide (r = Settled.rejected)) = true →
       restart exMap2 = ⟨500, false, [], strL "SIGINT"⟩) ∧
     ((killProcesses none exMap2).results.any (fun r => decide (r = Settled.rejected)) = false →
       restart exMap2 = ⟨200, true, [], strL "SIGINT"⟩)) :=
  ⟨by decide, restart_no_respawn_amended exMap2 (by decide)⟩

/-- On non-NaN numbers, the JavaScript strict greater-than agrees with
the linear order the embedding `toWB` lands in. -/
theorem jsGt_eq {a b : JsNum} (ha : a.isNaN = false) (hb : b.isNaN = false) :
    jsGt a b = decide (toWB b < toWB a) := by
  cases a <;> cases b <;>
    simp_all [JsNum.isNaN, jsGt, toWB, WithBot.coe_lt_coe, WithTop.coe_lt_top,
      WithBot.bot_lt_coe, lt_self_iff_false, not_lt_bot, not_top_lt,
      WithTop.coe_lt_coe] <;>
    exact WithBot.coe_lt_coe.mpr (WithTop.coe_lt_top _)

/-- Specification of the strictly-greater left fold: the result is an
element of the list, its key is maximal, and it is the last element
among those attaining the maximum. -/
theorem foldMax_spec {α β : Type} [LinearOrder β] (k : α → β) :
    ∀ (l : List α) (a : α),
      foldMax k a l ∈ a :: l ∧
      (∀ x ∈ a :: l, k x ≤ k (foldMax k a l)) ∧
      ((a :: l).filter (fun x => decide (k (foldMax k a l) ≤ k x))).getLast? =
        some (foldMax k a l) := by
  intro l
  induction l with
  | nil =>
    intro a
    refine ⟨by simp [foldMax], ?_, ?_⟩
    · intro x hx
      simp at hx
      subst hx
      simp [foldMax]
    · simp [foldMax, List.filter_cons]
  | cons b t ih =>
    intro a
    by_cases hc : k b < k a
    · have hstep : foldMax k a (b :: t) = foldMax k a t := by
        simp [foldMax, List.foldl_cons, hc]
      obtain ⟨ihm, ihmax, ihlast⟩ := ih a
      rw [hstep]
      have hr : k a ≤ k (foldMax k a t) := ihmax a (List.mem_cons_self _ _)
      refine ⟨?_, ?_, ?_⟩
      · rcases List.mem_cons.mp ihm with h | h
        · rw [h]; exact List.mem_cons_self _ _
        · exact List.mem_cons_of_mem _ (List.mem_cons_of_mem _ h)
      · intro x hx
        rcases List.mem_cons.mp hx with rfl | hx2
        · exact hr
        rcases List.mem_cons.mp hx2 with rfl | hx3
        · exact le_trans (le_of_lt hc) hr
        · exact ihmax x (List.mem_cons_of_mem _ hx3)
      · have hPb : decide (k (foldMax k a t) ≤ k b) = false :=
          decide_eq_false (fun hle => absurd hc (not_lt.mpr (le_trans hr hle)))
        simp only [List.filter_cons, hPb, Bool.false_eq_true, if_false]
        simp only [List.filter_cons] at ihlast
        exact ihlast
    · have hstep : foldMax k a (b :: t) = foldMax k b t := by
        simp [foldMax, List.foldl_cons, hc]
      have hab : k a ≤ k b := le_of_not_lt hc
      obtain ⟨ihm, ihmax, ihlast⟩ := ih b
      rw [hstep]
      have hrb : k b ≤ k (foldMax k b t) := ihmax b (List.mem_cons_self _ _)
      refine ⟨?_, ?_, ?_⟩
      · rcases List.mem_cons.mp ihm with h | h
        · rw [h]; exact List.mem_cons_of_mem _ (List.mem_cons_self _ _)
        · exact List.mem_cons_of_mem _ (List.mem_cons_of_mem _ h)
      · intro x hx
        rcases List.mem_cons.mp hx with rfl | hx2
        · exact le_trans hab hrb
        rcases List.mem_cons.mp hx2 with rfl | hx3
        · exact hrb
        · exact ihmax x (List.mem_cons_of_mem _ hx3)
      · by_cases hPa : k (foldMax k b t) ≤ k a
        · have hPa2 : decide (k (foldMax k b t) ≤ k a) = true := decide_eq_true hPa
          have hPb2 : decide (k (foldMax k b t) ≤ k b) = true :=
            decide_eq_true (le_trans hPa hab)
          simp only [List.filter_cons, hPa2, hPb2, if_true]
          rw [List.getLast?_cons_cons]
          simp only [List.filter_cons, hPb2, if_true] at ihlast
          exact ihlast
        · have hPa2 : decide (k (foldMax k b t) ≤ k a) = false := decide_eq_false hPa
          simp only [List.filter_cons, hPa2, Bool.false_eq_true, if_false]
          simp only [List.filter_cons] at ihlast
          exact ihlast

/-- On lists of non-NaN frame rates, the source fold with `jsGt` agrees
with the abstract strictly-greater fold over the order embedding. -/
theorem fold_jsGt_eq_foldMax : ∀ (l : List VideoFormat) (a : VideoFormat),
    (∀ f ∈ a :: l, f.fps.isNaN = false) →
    l.foldl (fun x y => if jsGt x.fps y.fps then x else y) a =
      foldMax (fun g => toWB g.fps) a l := by
  intro l
  induction l with
  | nil => intro a h; rfl
  | cons b t ih =>
    intro a h
    have ha : a.fps.isNaN = false := h a (by simp)
    have hb : b.fps.isNaN = false := h b (by simp)
    rw [List.foldl_cons]
    have hstep : (if jsGt a.fps b.fps then a else b) =
        (if toWB b.fps < toWB a.fps then a else b) := by
      rw [jsGt_eq ha hb]
      by_cases hcc : toWB b.fps < toWB a.fps <;> simp [hcc]
    rw [hstep]
    have hmem : ∀ f ∈ (if toWB b.fps < toWB a.fps then a else b) :: t,
        f.fps.isNaN = false := by
      intro f hf
      rcases List.mem_cons.mp hf with rfl | hf2
      · by_cases hcc : toWB b.fps < toWB a.fps
        · simpa [hcc] using ha
        · simpa [hcc] using hb
      · exact h f (List.mem_cons_of_mem _ (List.mem_cons_of_mem _ hf2))
    rw [ih (if toWB b.fps < toWB a.fps then a else b) hmem]
    rfl

/-- Membership in the selection filter implies membership in the format
list. -/
theorem mem_jpegFilter {x : VideoFormat} {formats : List VideoFormat}
    (h : x ∈ jpegFilter formats) : x ∈ formats := by
  unfold jpegFilter at h
  exact List.mem_of_mem_filter (List.mem_of_mem_filter h)

/-- Counterexample to C4 as stated: two jpeg 1920 by 1080 formats with
the same frame rate — the selector returns the second, so the first
element in parser emission order does not win the tie. -/
theorem selectFormat_tie_last_cex :
    selectFormat [fmtTieA, fmtTieB] = some fmtTieB ∧
    selectFormat [fmtTieA, fmtTieB] ≠ some fmtTieA :=
  ⟨by decide, by decide⟩

/-- Claim C4 (amended): over non-NaN frame rates, the Format Selector
filters to the jpeg tag (case-insensitive) and 1920 by 1080, returns an
explicit null on an empty filtered set without throwing, and otherwise
returns a filtered element of maximal frame rate; the strictly-greater
left fold moves to the later element on ties, so the returned format is
the LAST of the maxima in parser emission order. -/
theorem selectFormat_highest_fps_amended (formats : List VideoFormat)
    (h : ∀ f ∈ formats, f.fps.isNaN = false) :
    (selectFormat formats = none ↔ jpegFilter formats = []) ∧
    (∀ r, selectFormat formats = some r →
      r ∈ jpegFilter formats ∧
      (∀ g ∈ jpegFilter formats, jsGt g.fps r.fps = false) ∧
      ((jpegFilter formats).filter (fun g => !jsGt r.fps g.fps)).getLast? =
        some r) := by
  cases hf : jpegFilter formats with
  | nil =>
    constructor
    · unfold selectFormat
      rw [hf]
      simp
    · intro r hr
      unfold selectFormat at hr
      rw [hf] at hr
      cases hr
  | cons f rest =>
    have hnn : ∀ x ∈ f :: rest, x.fps.isNaN = false := by
      intro x hx
      apply h
      apply mem_jpegFilter
      rw [hf]
      exact hx
    have hval : selectFormat formats =
        some (rest.foldl (fun x y => if jsGt x.fps y.fps then x else y) f) := by
      unfold selectFormat
      rw [hf]
    have hfold : rest.foldl (fun x y => if jsGt x.fps y.fps then x else y) f =
        foldMax (fun g => toWB g.fps) f rest := fold_jsGt_eq_foldMax rest f hnn
    obtain ⟨hm, hmax, hlast⟩ := foldMax_spec (fun g => toWB g.fps) rest f
    constructor
    · constructor
      · intro hnone
        rw [hval] at hnone
        cases hnone
      · intro hcontra
        cases hcontra
    · intro r hr
      rw [hval] at hr
      injection hr with hr2
      subst hr2
      rw [hfold]
      have hrn : (foldMax (fun g => toWB g.fps) f rest).fps.isNaN = false := hnn _ hm
      refine ⟨?_, ?_, ?_⟩
      · exact hm
      · intro g hg
        have hgn : g.fps.isNaN = false := hnn g hg
        rw [jsGt_eq hgn hrn]
        exact decide_eq_false (not_lt.mpr (hmax g hg))
      · have hfeq : ((f :: rest).filter
              (fun g => !jsGt (foldMax (fun g => toWB g.fps) f rest).fps g.fps)) =
            ((f :: rest).filter
              (fun x => decide (toWB (foldMax (fun g => toWB g.fps) f rest).fps ≤
                toWB x.fps))) := by
          apply List.filter_congr
          intro x hx
          have hxn : x.fps.isNaN = false := hnn x hx
          rw [jsGt_eq hrn hxn, ← decide_not]
          exact decide_eq_decide.mpr not_lt
        rw [hfeq]
        exact hlast

/-- Witness for C4 at the spec testable-properties format list: all
hypotheses hold and the characterisation applies. -/
theorem selectFormat_highest_fps_amended_witness :
    (∀ f ∈ wFormats, f.fps.isNaN = false) ∧
    ((selectFormat wFormats = none ↔ jpegFilter wFormats = []) ∧
     (∀ r, selectFormat wFormats = some r →
       r ∈ jpegFilter wFormats ∧
       (∀ g ∈ jpegFilter wFormats, jsGt g.fps r.fps = false) ∧
       ((jpegFilter wFormats).filter (fun g => !jsGt r.fps g.fps)).getLast? =
         some r)) :=
  ⟨by decide, selectFormat_highest_fps_amended wFormats (by decide)⟩
